import Mathlib

/-!
# Verification of the ankitui review state machine

A shallow embedding of `main.go` of the `ankitui` repository: a terminal
client for reviewing Anki flashcards through the AnkiConnect HTTP API.

Modelling conventions:
* Go strings are `String`, Go `int`/`int64` are `Int`, slice indices are `Nat`
  (the cursor starts at 0 and is only ever incremented).
* The Go map `EaseOptions map[int]string` is modelled as an association list
  kept in insertion order.  Go randomizes map iteration order; the embedding
  fixes it to insertion order, which is noted where it matters.
* lipgloss styling is an external rendering primitive; each style's `Render`
  is modelled as a plain function on the content string (identity by default).
* JSON (de)serialization and HTTP transport are external; they are modelled by
  outcome values describing what the wire interaction produced.
-/

/-- AnkiConnect API endpoint (`const ankiConnectURL` in the source). -/
def ankiConnectURL : String := "http://localhost:8765"

/-- `Card` from the source: a simplified Anki card for the TUI.
`EaseOptions` (Go: `map[int]string`) is an association list in insertion
order, mapping an ease value to its button text. -/
structure Card where
  ID : Int
  Front : String
  Back : String
  EaseOptions : List (Int × String)
deriving DecidableEq, Repr

/-- `appState` from the source: the different states of the application. -/
inductive appState where
  | stateLoading
  | stateDisplayingCard
  | stateNoCards
  | stateError
  | stateQuitting
deriving DecidableEq, Repr

/-- `styles` from the source; each lipgloss style is abstracted to the
function its `Render` performs on the content string. -/
structure styles where
  title : String → String
  status : String → String
  card : String → String
  front : String → String
  back : String → String
  prompt : String → String
  error : String → String
  button : String → String

/-- `newStyles` from the source: lipgloss styling (colors, borders, padding)
is an external terminal-rendering primitive, so each style is modelled as
the identity on its content. -/
def newStyles : styles :=
  { title := id, status := id, card := id, front := id,
    back := id, prompt := id, error := id, button := id }

/-- `model` from the source: the state of the TUI application. -/
structure model where
  cards : List Card
  currentCardIndex : Nat
  showBack : Bool
  state : appState
  err : Option String
  ankiConnectURL : String
  quitting : Bool
  styles : styles

/-- `InitialModel` from the source: zero values for every field not set
explicitly (`cards` nil, `currentCardIndex` 0, `showBack` false, `err` nil,
`quitting` false). -/
def InitialModel : model :=
  { cards := []
    currentCardIndex := 0
    showBack := false
    state := appState.stateLoading
    err := none
    ankiConnectURL := ankiConnectURL
    quitting := false
    styles := newStyles }

/-- The messages fed into `Update`: key presses and the three async
message types (`cardsLoadedMsg`, `cardAnsweredMsg`, `errMsg`).  Go errors
are modelled by their message strings. -/
inductive Msg where
  | key (s : String)
  | cardsLoaded (cards : List Card)
  | cardAnswered (cardID : Int) (ease : Int)
  | err (e : String)

/-- The commands `Update`/`Init` can emit: `tea.Quit`, `answerCardCmd`,
`fetchDueCardsCmd`. -/
inductive Cmd where
  | quit
  | answerCard (cardID : Int) (ease : Int)
  | fetchDueCards
deriving DecidableEq, Repr

/-- Association-list lookup, modelling a Go map read `l[k]`. -/
def alLookup (l : List (Int × String)) (k : Int) : Option String :=
  match l with
  | [] => none
  | (k', v') :: t => if k' = k then some v' else alLookup t k

/-- Association-list insertion, modelling a Go map write `l[k] = v`
(overwrite in place, otherwise append; insertion order is kept). -/
def alInsert (l : List (Int × String)) (k : Int) (v : String) : List (Int × String) :=
  match l with
  | [] => [(k, v)]
  | (k', v') :: t => if k' = k then (k, v) :: t else (k', v') :: alInsert t k v

/-- `strconv.Atoi` restricted to the four key strings the `"1", "2", "3",
"4"` switch case can receive; on those it always succeeds. -/
def atoiDigit (s : String) : Option Int :=
  if s = "1" then some 1
  else if s = "2" then some 2
  else if s = "3" then some 3
  else if s = "4" then some 4
  else none

/-- `Update` from the source: handles one message and returns the new model
and the emitted command (`nil` modelled as `none`).  The Go `switch` on
`msg.String()` is an if-chain; branches that fall out of the switch reach
the final `return m, nil`. -/
def update (m : model) (msg : Msg) : model × Option Cmd :=
  match msg with
  | .key s =>
    if s = "q" ∨ s = "ctrl+c" then
      ({ m with quitting := true }, some Cmd.quit)
    else if s = "enter" then
      if m.state = appState.stateDisplayingCard then
        if m.showBack = true then
          (m, none)
        else
          ({ m with showBack := true }, none)
      else (m, none)
    else if s = "1" ∨ s = "2" ∨ s = "3" ∨ s = "4" then
      if m.state = appState.stateDisplayingCard ∧ m.showBack = true then
        match atoiDigit s with
        | none =>
          ({ m with err := some "invalid ease input", state := appState.stateError }, none)
        | some ease =>
          if h : m.currentCardIndex < m.cards.length then
            let theCard := m.cards.get ⟨m.currentCardIndex, h⟩
            match alLookup theCard.EaseOptions ease with
            | some _ => (m, some (Cmd.answerCard theCard.ID ease))
            | none => (m, none)
          else (m, none)
      else (m, none)
    else if s = "right" ∨ s = "n" then
      if m.state = appState.stateDisplayingCard then
        if m.currentCardIndex + 1 ≥ m.cards.length then
          ({ m with currentCardIndex := m.currentCardIndex + 1, showBack := false,
                    state := appState.stateNoCards }, none)
        else
          ({ m with currentCardIndex := m.currentCardIndex + 1, showBack := false }, none)
      else (m, none)
    else (m, none)
  | .cardsLoaded cs =>
    if cs.length = 0 then
      ({ m with state := appState.stateNoCards }, none)
    else
      ({ m with cards := cs, state := appState.stateDisplayingCard,
                currentCardIndex := 0, showBack := false }, none)
  | .cardAnswered _ _ =>
    if m.currentCardIndex + 1 ≥ m.cards.length then
      ({ m with currentCardIndex := m.currentCardIndex + 1, showBack := false,
                state := appState.stateNoCards }, none)
    else
      ({ m with currentCardIndex := m.currentCardIndex + 1, showBack := false }, none)
  | .err e =>
    ({ m with err := some e, state := appState.stateError }, none)

/-- `lipgloss.JoinVertical(lipgloss.Center, ...)` abstracted to joining the
blocks with newlines (horizontal centering is a terminal-rendering detail). -/
def joinVertical (xs : List String) : String :=
  String.intercalate "\n" xs

/-- The ease-option controls rendered by the `range card.EaseOptions` loop
in `View`, in iteration order: one `" "` plus a button-styled
`"<ease>: <label>"` per entry. -/
def easeControls (sty : styles) (opts : List (Int × String)) : List String :=
  opts.map (fun p => " " ++ sty.button (toString p.1 ++ ": " ++ p.2))

/-- `fmt.Sprintf("Error: %v\n", m.err)` on the stored error (`<nil>` when
no error is set, as Go prints a nil error). -/
def errText (e : Option String) : String :=
  match e with
  | some s => s
  | none => "<nil>"

/-- `View` from the source: renders the TUI as a pure function of the
model. -/
def view (m : model) : String :=
  if m.quitting = true then "Exiting Anki Study TUI...\n"
  else
    let header := m.styles.title "Anki Study TUI"
    let statusBody : String × String :=
      match m.state with
      | appState.stateLoading => ("", "Loading cards from AnkiConnect...\n")
      | appState.stateDisplayingCard =>
        if h : 0 < m.cards.length ∧ m.currentCardIndex < m.cards.length then
          let theCard := m.cards.get ⟨m.currentCardIndex, h.2⟩
          let status := m.styles.status
            ("Card " ++ toString (m.currentCardIndex + 1) ++ "/" ++ toString m.cards.length)
          let cardContent :=
            if m.showBack = true then
              m.styles.front theCard.Front ++ "\n\n" ++ m.styles.back theCard.Back
                ++ "\n\n" ++ m.styles.prompt "Press 1-4 to answer:"
                ++ String.join (easeControls m.styles theCard.EaseOptions)
            else
              m.styles.front theCard.Front ++ "\n\n"
                ++ m.styles.prompt "Press ENTER to reveal back"
          (status, m.styles.card cardContent)
        else ("", "")
      | appState.stateNoCards =>
        ("", "No cards due today! Great job!\n" ++ m.styles.prompt "Press 'q' to quit.")
      | appState.stateError =>
        ("", m.styles.error ("Error: " ++ errText m.err ++ "\n")
              ++ m.styles.prompt "Press 'q' to quit.")
      | appState.stateQuitting => ("", "")
    joinVertical [header, statusBody.1, statusBody.2]

/-! ## The remote client (`postAnkiConnect` and the two commands) -/

/-- A parsed `cardInfoResult` record: card identifier, `Front`/`Back` field
values, and the list of legal ease button codes. -/
structure CardInfoRec where
  cardId : Int
  front : String
  back : String
  buttons : List Int
deriving DecidableEq, Repr

/-- The decoded `result` payload of an AnkiConnect response (Go:
`interface{}` inspected with runtime type assertions).  `num` is a JSON
number (modelled as an integer, matching the `float64 → int64` conversion
on identifiers), `arr` a JSON array, `record` a JSON object together with
the outcome of re-marshalling it into `cardInfoResult` (`none` models a
record that fails to unmarshal and is skipped with a warning), `other`
any other payload shape. -/
inductive JVal where
  | num (x : Int)
  | arr (elems : List JVal)
  | record (parsed : Option CardInfoRec)
  | other

/-- `AnkiConnectResponse` from the source: the generic response envelope
`{"result": any, "error": string|null}`. -/
structure AnkiConnectResponse where
  result : JVal
  error : Option String

/-- What reading and decoding the HTTP response body produced:
`readErr` models an `ioutil.ReadAll` failure, `bytes` carries the outcome
of `json.Unmarshal` on the body (error string or decoded envelope). -/
inductive Body where
  | readErr (e : String)
  | bytes (decoded : Except String AnkiConnectResponse)

/-- The outcome of `http.Post`: either a transport error (`connErr`) or a
response carrying an HTTP status code and a body. -/
inductive PostOutcome where
  | connErr (e : String)
  | resp (status : Nat) (body : Body)

/-- The distinct failures `postAnkiConnect` can return, one per
`fmt.Errorf` site in the source. -/
inductive PAFailure where
  | connectFailed (e : String)
  | readBodyFailed (e : String)
  | unmarshalFailed (e : String)
  | ankiError (e : String)
deriving DecidableEq, Repr

/-- The error message attached to each failure, following the
`fmt.Errorf` format strings of the source. -/
def failureMsg : PAFailure → String
  | .connectFailed e =>
      "failed to connect to AnkiConnect at " ++ ankiConnectURL ++ ": " ++ e
        ++ "\nEnsure Anki is running and AnkiConnect add-on is installed."
  | .readBodyFailed e => "failed to read response body: " ++ e
  | .unmarshalFailed e => "failed to unmarshal AnkiConnect response: " ++ e
  | .ankiError e => "AnkiConnect error: " ++ e

/-- `postAnkiConnect` from the source, as a function of the wire outcome.
Marshalling the request envelope of concrete parameter structs never
fails, so the embedding starts at the `http.Post` call.  Note that the
source never inspects `resp.StatusCode`: the `status` argument is unused,
exactly as in the code. -/
def postAnkiConnect (o : PostOutcome) : Except PAFailure JVal :=
  match o with
  | .connErr e => Except.error (PAFailure.connectFailed e)
  | .resp _status body =>
    match body with
    | .readErr e => Except.error (PAFailure.readBodyFailed e)
    | .bytes (Except.error e) => Except.error (PAFailure.unmarshalFailed e)
    | .bytes (Except.ok ankiResp) =>
      match ankiResp.error with
      | some e => Except.error (PAFailure.ankiError e)
      | none => Except.ok ankiResp.result

/-- `defaultEaseLabels` from the source: the fixed four-entry lookup
table. -/
def defaultEaseLabels (n : Int) : Option String :=
  if n = 1 then some "Again"
  else if n = 2 then some "Hard"
  else if n = 3 then some "Good"
  else if n = 4 then some "Easy"
  else none

/-- The label stored for one button code: the table entry when present,
otherwise the `fmt.Sprintf("Ease %d", easeVal)` fallback. -/
def easeEntry (n : Int) : String :=
  match defaultEaseLabels n with
  | some label => label
  | none => "Ease " ++ toString n

/-- The `for _, easeVal := range ci.Buttons` loop of `fetchDueCardsCmd`:
builds the `easeOptions` map by successive insertion. -/
def mkEaseOptions (buttons : List Int) : List (Int × String) :=
  buttons.foldl (fun acc v => alInsert acc v (easeEntry v)) []

/-- Construction of one `Card` from a parsed `cardInfoResult`. -/
def mkCard (ci : CardInfoRec) : Card :=
  { ID := ci.cardId
    Front := ci.front
    Back := ci.back
    EaseOptions := mkEaseOptions ci.buttons }

/-- The `findCards` id collection: Go keeps exactly the elements that are
JSON numbers (`float64` type assertions) and drops the rest. -/
def extractCardIDs (elems : List JVal) : List Int :=
  elems.filterMap (fun j => match j with | .num x => some x | _ => none)

/-- The per-record `json.Marshal`/`json.Unmarshal` round trip of
`fetchDueCardsCmd`: an object either parses into a `cardInfoResult` or is
skipped; non-object elements never parse. -/
def parseCardInfo (j : JVal) : Option CardInfoRec :=
  match j with
  | .record p => p
  | _ => none

/-- The wire outcomes of the two calls `fetchDueCardsCmd` makes. -/
structure FetchEnv where
  findOutcome : PostOutcome
  infoOutcome : PostOutcome

/-- The body of `fetchDueCardsCmd` from the source: the message the
asynchronous fetch task eventually delivers, as a function of the wire
outcomes.  (`%T` type names in the two format-mismatch errors are
abstracted away.) -/
def fetchDueCardsRun (env : FetchEnv) : Msg :=
  match postAnkiConnect env.findOutcome with
  | Except.error e => Msg.err ("failed to find due cards: " ++ failureMsg e)
  | Except.ok findCardsResult =>
    match findCardsResult with
    | JVal.arr ids =>
      let cardIDs := extractCardIDs ids
      if cardIDs.length = 0 then Msg.cardsLoaded []
      else
        match postAnkiConnect env.infoOutcome with
        | Except.error e => Msg.err ("failed to get cards info: " ++ failureMsg e)
        | Except.ok cardsInfoResult =>
          match cardsInfoResult with
          | JVal.arr infos =>
              Msg.cardsLoaded ((infos.filterMap parseCardInfo).map mkCard)
          | _ => Msg.err "unexpected cardsInfo result format"
    | _ => Msg.err "unexpected findCards result format"

/-- The body of `answerCardCmd` from the source: the message the
asynchronous answer task eventually delivers. -/
def answerCardRun (o : PostOutcome) (cardID : Int) (ease : Int) : Msg :=
  match postAnkiConnect o with
  | Except.error e =>
      Msg.err ("failed to answer card " ++ toString cardID ++ " with ease "
        ++ toString ease ++ ": " ++ failureMsg e)
  | Except.ok _ => Msg.cardAnswered cardID ease

/-! ## Trace semantics of the event loop

bubbletea runs a single-threaded loop: each emitted command executes as an
asynchronous task whose eventual result is delivered back as one message.
A configuration is the current model plus the multiset of in-flight
network tasks; `tea.Quit` is a runtime control signal, not a network task. -/

/-- The network tasks started by an emitted command. -/
def netCmds (c : Option Cmd) : List Cmd :=
  match c with
  | some (Cmd.answerCard cid ease) => [Cmd.answerCard cid ease]
  | some Cmd.fetchDueCards => [Cmd.fetchDueCards]
  | _ => []

/-- A configuration of the event loop: current model plus in-flight
network tasks. -/
structure Config where
  m : model
  pending : List Cmd

/-- Successor configuration after a key press. -/
def keyNext (c : Config) (s : String) : Config :=
  { m := (update c.m (Msg.key s)).1
    pending := c.pending ++ netCmds (update c.m (Msg.key s)).2 }

/-- Successor configuration after an in-flight task `cmd` completes and
delivers `msg`. -/
def deliverNext (c : Config) (cmd : Cmd) (msg : Msg) : Config :=
  { m := (update c.m msg).1
    pending := c.pending.erase cmd ++ netCmds (update c.m msg).2 }

/-- Which messages an in-flight task can deliver: the fetch task delivers
`fetchDueCardsRun` of some wire outcome, an answer task delivers
`answerCardRun` of some wire outcome. -/
inductive Resolves : Cmd → Msg → Prop where
  | fetch (env : FetchEnv) : Resolves Cmd.fetchDueCards (fetchDueCardsRun env)
  | answer (o : PostOutcome) (cardID ease : Int) :
      Resolves (Cmd.answerCard cardID ease) (answerCardRun o cardID ease)

/-- One step of the event loop: a key press, or delivery of the completion
message of one in-flight task. -/
inductive Step : Config → Config → Prop where
  | key (c : Config) (s : String) : Step c (keyNext c s)
  | deliver (c : Config) (cmd : Cmd) (msg : Msg)
      (hmem : cmd ∈ c.pending) (hres : Resolves cmd msg) :
      Step c (deliverNext c cmd msg)

/-- The start configuration: `InitialModel` with the fetch task dispatched
by `Init`. -/
def initConfig : Config :=
  { m := InitialModel, pending := [Cmd.fetchDueCards] }

/-- Reachability of a configuration from program start. -/
inductive Reachable : Config → Prop where
  | init : Reachable initConfig
  | step {c c' : Config} : Reachable c → Step c c' → Reachable c'


/-! ## Concrete example data

Fixed records, wire outcomes and models used in concrete executions of the
embedding. -/

/-- A card-info record: card 1, front "f", back "b", single legal ease 1. -/
def rec1 : CardInfoRec := { cardId := 1, front := "f", back := "b", buttons := [1] }

/-- Wire outcomes under which the fetch finds card 1 due and loads it. -/
def envEx : FetchEnv :=
  { findOutcome := PostOutcome.resp 200
      (Body.bytes (Except.ok { result := JVal.arr [JVal.num 1], error := none }))
    infoOutcome := PostOutcome.resp 200
      (Body.bytes (Except.ok { result := JVal.arr [JVal.record (some rec1)], error := none })) }

/-- A wire outcome for a successful call: status 200, empty error field. -/
def oOk : PostOutcome :=
  PostOutcome.resp 200 (Body.bytes (Except.ok { result := JVal.other, error := none }))

/-- Configuration after the fetch task delivers the one-card load. -/
def cfg1 : Config := deliverNext initConfig Cmd.fetchDueCards (fetchDueCardsRun envEx)

/-- Configuration after revealing the back of card 1. -/
def cfg2 : Config := keyNext cfg1 "enter"

/-- Configuration after pressing ease key "1": the answer task is now in
flight and the model is unchanged. -/
def cfg3 : Config := keyNext cfg2 "1"

/-- Configuration after skipping past the last card while the answer task
is still in flight: the phase is `stateNoCards` with the cursor at 1. -/
def cfg4 : Config := keyNext cfg3 "n"

/-- Configuration after the stale answer completion arrives: the cursor
advances again, past the end of the card list. -/
def cfg5 : Config := deliverNext cfg4 (Cmd.answerCard 1 1) (answerCardRun oOk 1 1)

/-- A card-info record whose button list is not in ascending order. -/
def recC5 : CardInfoRec := { cardId := 7, front := "f", back := "b", buttons := [3, 1] }

/-- A revealed Reviewing model showing the card built from `recC5`. -/
def mC5 : model :=
  { cards := [mkCard recC5], currentCardIndex := 0, showBack := true,
    state := appState.stateDisplayingCard, err := none,
    ankiConnectURL := ankiConnectURL, quitting := false, styles := newStyles }

/-- A card-info record with two button codes, one outside 1..4. -/
def recW6 : CardInfoRec := { cardId := 2, front := "x", back := "y", buttons := [1, 5] }

/-- A revealed Reviewing model whose current card only allows ease 1. -/
def mW8 : model :=
  { cards := [mkCard rec1], currentCardIndex := 0, showBack := true,
    state := appState.stateDisplayingCard, err := none,
    ankiConnectURL := ankiConnectURL, quitting := false, styles := newStyles }

/-- The same model with the back not yet revealed. -/
def mW9 : model := { mW8 with showBack := false }

/-- A model still in `stateDisplayingCard` with an empty card list. -/
def mW10 : model := { InitialModel with state := appState.stateDisplayingCard }

/-- Wire outcomes whose first call fails with a transport error. -/
def envW7 : FetchEnv :=
  { findOutcome := PostOutcome.connErr "connection refused", infoOutcome := oOk }

/-- What processing an `errMsg` carrying `e` leaves behind: phase
`stateError`, the error stored verbatim, and no cards. -/
def errorProcessed (m : model) (e : String) : Prop :=
  (update m (Msg.err e)).1.state = appState.stateError ∧
  (update m (Msg.err e)).1.err = some e ∧
  (update m (Msg.err e)).1.cards = []

/-- Exhaustive case analysis of one key press: every branch of the
`tea.KeyMsg` switch returns one of these five outcomes. -/
lemma update_key_cases (m : model) (s : String) :
    update m (Msg.key s) = ({ m with quitting := true }, some Cmd.quit)
    ∨ update m (Msg.key s) = (m, none)
    ∨ (update m (Msg.key s) = ({ m with showBack := true }, none) ∧
        m.state = appState.stateDisplayingCard)
    ∨ (∃ cid ease, update m (Msg.key s) = (m, some (Cmd.answerCard cid ease)) ∧
        m.state = appState.stateDisplayingCard)
    ∨ (m.state = appState.stateDisplayingCard ∧
        ((update m (Msg.key s) =
            ({ m with currentCardIndex := m.currentCardIndex + 1, showBack := false,
                      state := appState.stateNoCards }, none) ∧
          m.cards.length ≤ m.currentCardIndex + 1)
         ∨ (update m (Msg.key s) =
              ({ m with currentCardIndex := m.currentCardIndex + 1, showBack := false }, none) ∧
            m.currentCardIndex + 1 < m.cards.length))) := by
  simp only [update]
  by_cases h1 : s = "q" ∨ s = "ctrl+c"
  · rw [if_pos h1]; left; rfl
  rw [if_neg h1]
  by_cases h2 : s = "enter"
  · rw [if_pos h2]
    by_cases h3 : m.state = appState.stateDisplayingCard
    · rw [if_pos h3]
      by_cases h4 : m.showBack = true
      · rw [if_pos h4]; right; left; rfl
      · rw [if_neg h4]; right; right; left; exact ⟨rfl, h3⟩
    · rw [if_neg h3]; right; left; rfl
  rw [if_neg h2]
  by_cases h5 : s = "1" ∨ s = "2" ∨ s = "3" ∨ s = "4"
  · rw [if_pos h5]
    by_cases h6 : m.state = appState.stateDisplayingCard ∧ m.showBack = true
    · rw [if_pos h6]
      obtain ⟨k, hk⟩ : ∃ k, atoiDigit s = some k := by
        rcases h5 with h | h | h | h <;> subst h <;> exact ⟨_, rfl⟩
      by_cases hlt : m.currentCardIndex < m.cards.length
      · cases hL : alLookup ((m.cards.get ⟨m.currentCardIndex, hlt⟩).EaseOptions) k with
        | none =>
            right; left
            simp only [hk, dif_pos hlt, hL]
        | some v =>
            right; right; right; left
            refine ⟨(m.cards.get ⟨m.currentCardIndex, hlt⟩).ID, k, ?_, h6.1⟩
            simp only [hk, dif_pos hlt, hL]
      · right; left
        simp only [hk, dif_neg hlt]
    · rw [if_neg h6]; right; left; rfl
  rw [if_neg h5]
  by_cases h7 : s = "right" ∨ s = "n"
  · rw [if_pos h7]
    by_cases h8 : m.state = appState.stateDisplayingCard
    · rw [if_pos h8]
      by_cases h9 : m.currentCardIndex + 1 ≥ m.cards.length
      · rw [if_pos h9]
        right; right; right; right
        exact ⟨h8, Or.inl ⟨rfl, h9⟩⟩
      · rw [if_neg h9]
        right; right; right; right
        refine ⟨h8, Or.inr ⟨rfl, ?_⟩⟩
        omega
    · rw [if_neg h8]; right; left; rfl
  rw [if_neg h7]
  right; left; rfl

/-- A key press never changes the card list. -/
lemma update_key_cards (m : model) (s : String) :
    ((update m (Msg.key s)).1).cards = m.cards := by
  rcases update_key_cases m s with h | h | ⟨h, _⟩ | ⟨cid, ease, h, _⟩ |
    ⟨_, ⟨h, _⟩ | ⟨h, _⟩⟩ <;> rw [h]

/-- A key press never decreases the cursor. -/
lemma update_key_idx_mono (m : model) (s : String) :
    m.currentCardIndex ≤ ((update m (Msg.key s)).1).currentCardIndex := by
  rcases update_key_cases m s with h | h | ⟨h, _⟩ | ⟨cid, ease, h, _⟩ |
    ⟨_, ⟨h, _⟩ | ⟨h, _⟩⟩ <;> rw [h] <;> simp

/-- A key press received in `stateLoading` at most sets the `quitting`
flag. -/
lemma update_key_loading (m : model) (s : String)
    (hL : m.state = appState.stateLoading) :
    (update m (Msg.key s)).1 = m ∨
      (update m (Msg.key s)).1 = { m with quitting := true } := by
  rcases update_key_cases m s with h | h | ⟨h, hd⟩ | ⟨cid, ease, h, hd⟩ |
    ⟨hd, ⟨h, _⟩ | ⟨h, _⟩⟩
  · right; rw [h]
  · left; rw [h]
  · rw [hd] at hL; exact absurd hL (by decide)
  · left; rw [h]
  · rw [hd] at hL; exact absurd hL (by decide)
  · rw [hd] at hL; exact absurd hL (by decide)

/-- A key press never enters `stateLoading`. -/
lemma update_key_to_loading (m : model) (s : String)
    (h : ((update m (Msg.key s)).1).state = appState.stateLoading) :
    m.state = appState.stateLoading := by
  rcases update_key_cases m s with he | he | ⟨he, _⟩ | ⟨cid, ease, he, _⟩ |
    ⟨_, ⟨he, _⟩ | ⟨he, _⟩⟩ <;> rw [he] at h <;>
    first
      | exact h
      | simp at h

/-- A key press enters `stateNoCards` only by the skip transition, with
the cursor at or beyond the end of the card list; otherwise the state was
already `stateNoCards` and the cursor is untouched. -/
lemma update_key_to_noCards (m : model) (s : String)
    (h : ((update m (Msg.key s)).1).state = appState.stateNoCards) :
    (m.state = appState.stateNoCards ∧
      ((update m (Msg.key s)).1).currentCardIndex = m.currentCardIndex) ∨
    ((update m (Msg.key s)).1).cards.length ≤
      ((update m (Msg.key s)).1).currentCardIndex := by
  rcases update_key_cases m s with he | he | ⟨he, hd⟩ | ⟨cid, ease, he, hd⟩ |
    ⟨hd, ⟨he, hb⟩ | ⟨he, hb⟩⟩
  · left; rw [he] at h ⊢; exact ⟨h, rfl⟩
  · left; rw [he] at h ⊢; exact ⟨h, rfl⟩
  · left; rw [he] at h ⊢; exact ⟨h, rfl⟩
  · left; rw [he] at h ⊢; exact ⟨h, rfl⟩
  · right; rw [he]; exact hb
  · rw [he] at h; rw [hd] at h; exact absurd h (by decide)

/-- A key press never starts a fetch task. -/
lemma update_key_no_fetch (m : model) (s : String) :
    Cmd.fetchDueCards ∉ netCmds (update m (Msg.key s)).2 := by
  rcases update_key_cases m s with h | h | ⟨h, _⟩ | ⟨cid, ease, h, _⟩ |
    ⟨_, ⟨h, _⟩ | ⟨h, _⟩⟩ <;> rw [h] <;> simp [netCmds]

/-- A key press starts a network task only in `stateDisplayingCard`. -/
lemma update_key_net_displaying (m : model) (s : String) :
    netCmds (update m (Msg.key s)).2 = [] ∨
      m.state = appState.stateDisplayingCard := by
  rcases update_key_cases m s with h | h | ⟨h, _⟩ | ⟨cid, ease, h, hd⟩ |
    ⟨_, ⟨h, _⟩ | ⟨h, _⟩⟩
  · left; rw [h]; rfl
  · left; rw [h]; rfl
  · left; rw [h]; rfl
  · right; exact hd
  · left; rw [h]; rfl
  · left; rw [h]; rfl

/-- `cardAnsweredMsg` handling, written out: advance the cursor, clear the
reveal flag, and enter `stateNoCards` when the new cursor is at or beyond
the end. -/
lemma update_cardAnswered_eq (m : model) (cid ease : Int) :
    update m (Msg.cardAnswered cid ease) =
      if m.currentCardIndex + 1 ≥ m.cards.length then
        ({ m with currentCardIndex := m.currentCardIndex + 1, showBack := false,
                  state := appState.stateNoCards }, none)
      else
        ({ m with currentCardIndex := m.currentCardIndex + 1, showBack := false }, none) := rfl

/-- `errMsg` handling: store the error, set `stateError`, emit nothing. -/
lemma update_err_eq (m : model) (e : String) :
    update m (Msg.err e) =
      ({ m with err := some e, state := appState.stateError }, none) := rfl

/-- `cardsLoadedMsg` handling with an empty list. -/
lemma update_cardsLoaded_nil (m : model) :
    update m (Msg.cardsLoaded []) =
      ({ m with state := appState.stateNoCards }, none) := rfl

/-- `cardsLoadedMsg` handling with a non-empty list. -/
lemma update_cardsLoaded_cons (m : model) (c : Card) (cs : List Card) :
    update m (Msg.cardsLoaded (c :: cs)) =
      ({ m with cards := c :: cs, state := appState.stateDisplayingCard,
                currentCardIndex := 0, showBack := false }, none) := by
  simp only [update]
  rw [if_neg (by simp)]

/-- Message handlers (non-key messages) emit no command. -/
lemma update_msg_no_cmd (m : model) (msg : Msg) (hk : ∀ s, msg ≠ Msg.key s) :
    (update m msg).2 = none := by
  cases msg with
  | key s => exact absurd rfl (hk s)
  | cardsLoaded cs => cases cs <;> simp only [update] <;> split <;> rfl
  | cardAnswered cid ease => simp only [update]; split <;> rfl
  | err e => rfl

/-- The fetch task always delivers either a `cardsLoadedMsg` or an
`errMsg`. -/
lemma fetchRun_shape (env : FetchEnv) :
    (∃ cs, fetchDueCardsRun env = Msg.cardsLoaded cs) ∨
    (∃ e, fetchDueCardsRun env = Msg.err e) := by
  unfold fetchDueCardsRun
  cases postAnkiConnect env.findOutcome with
  | error e => right; exact ⟨_, rfl⟩
  | ok r =>
      cases r with
      | arr ids =>
          by_cases hz : (extractCardIDs ids).length = 0
          · left; simp only [hz, if_pos]; exact ⟨_, rfl⟩
          · simp only [if_neg hz]
            cases postAnkiConnect env.infoOutcome with
            | error e => right; exact ⟨_, rfl⟩
            | ok r2 =>
                cases r2 with
                | arr infos => left; exact ⟨_, rfl⟩
                | num x => right; exact ⟨_, rfl⟩
                | record p => right; exact ⟨_, rfl⟩
                | other => right; exact ⟨_, rfl⟩
      | num x => right; exact ⟨_, rfl⟩
      | record p => right; exact ⟨_, rfl⟩
      | other => right; exact ⟨_, rfl⟩

/-- The answer task always delivers either the matching `cardAnsweredMsg`
or an `errMsg`. -/
lemma answerRun_shape (o : PostOutcome) (cid ease : Int) :
    answerCardRun o cid ease = Msg.cardAnswered cid ease ∨
    (∃ e, answerCardRun o cid ease = Msg.err e) := by
  unfold answerCardRun
  cases postAnkiConnect o with
  | error e => right; exact ⟨_, rfl⟩
  | ok r => left; rfl

/-! ## Reachability invariant -/

/-- Invariant of reachable configurations: while the fetch task is in
flight the machine is still in the untouched `stateLoading` start state
and the fetch is the only task; `stateLoading` always has the fetch in
flight; and in `stateNoCards` the cursor is at or beyond the end of the
card list. -/
def ReachInv (c : Config) : Prop :=
  (Cmd.fetchDueCards ∈ c.pending →
    c.pending = [Cmd.fetchDueCards] ∧
    c.m.state = appState.stateLoading ∧
    c.m.currentCardIndex = 0 ∧ c.m.cards = [])
  ∧ (c.m.state = appState.stateLoading → Cmd.fetchDueCards ∈ c.pending)
  ∧ (c.m.state = appState.stateNoCards →
      c.m.cards.length ≤ c.m.currentCardIndex)

lemma inv_init : ReachInv initConfig := by
  refine ⟨fun _ => ⟨rfl, rfl, rfl, rfl⟩, fun _ => ?_, fun h => ?_⟩
  · exact List.mem_singleton.mpr rfl
  · exact absurd h (by decide)

lemma inv_key (c : Config) (s : String) (hI : ReachInv c) :
    ReachInv (keyNext c s) := by
  obtain ⟨h1, h2, h3⟩ := hI
  refine ⟨?_, ?_, ?_⟩
  · intro hmem
    have hmem' : Cmd.fetchDueCards ∈ c.pending := by
      rcases List.mem_append.mp hmem with h | h
      · exact h
      · exact absurd h (update_key_no_fetch c.m s)
    obtain ⟨hp, hs, hi, hc⟩ := h1 hmem'
    have hnet : netCmds (update c.m (Msg.key s)).2 = [] := by
      rcases update_key_net_displaying c.m s with h | h
      · exact h
      · rw [hs] at h; exact absurd h (by decide)
    rcases update_key_loading c.m s hs with hm | hm <;>
      refine ⟨by simp [keyNext, hp, hnet], ?_, ?_, ?_⟩ <;>
      simp [keyNext, hm, hs, hi, hc]
  · intro hs
    have hs' : c.m.state = appState.stateLoading :=
      update_key_to_loading c.m s hs
    exact List.mem_append.mpr (Or.inl (h2 hs'))
  · intro hs
    rcases update_key_to_noCards c.m s hs with ⟨hold, hidx⟩ | hb
    · have hbound := h3 hold
      have hcards := update_key_cards c.m s
      show ((update c.m (Msg.key s)).1).cards.length ≤
        ((update c.m (Msg.key s)).1).currentCardIndex
      rw [hcards, hidx]
      exact hbound
    · exact hb

lemma inv_deliver (c : Config) (cmd : Cmd) (msg : Msg)
    (hmem : cmd ∈ c.pending) (hres : Resolves cmd msg) (hI : ReachInv c) :
    ReachInv (deliverNext c cmd msg) := by
  obtain ⟨h1, h2, h3⟩ := hI
  cases hres with
  | fetch env =>
      obtain ⟨hp, hs, hi, hc⟩ := h1 hmem
      have hpend : (deliverNext c Cmd.fetchDueCards (fetchDueCardsRun env)).pending = [] := by
        have hnet : netCmds (update c.m (fetchDueCardsRun env)).2 = [] := by
          rcases fetchRun_shape env with ⟨cs, hsh⟩ | ⟨e, hsh⟩ <;>
            rw [hsh] <;>
            rw [update_msg_no_cmd c.m _ (fun s h => Msg.noConfusion h)] <;> rfl
        simp [deliverNext, hp, hnet]
      refine ⟨?_, ?_, ?_⟩
      · intro hf; rw [hpend] at hf; exact absurd hf (by simp)
      · intro hsL
        exfalso
        rcases fetchRun_shape env with ⟨cs, hsh⟩ | ⟨e, hsh⟩
        · cases cs with
          | nil =>
              rw [hsh] at hsL
              simp only [deliverNext, update_cardsLoaded_nil] at hsL
              exact absurd hsL (by decide)
          | cons c0 cs0 =>
              rw [hsh] at hsL
              simp only [deliverNext, update_cardsLoaded_cons] at hsL
              exact absurd hsL (by decide)
        · rw [hsh] at hsL
          simp only [deliverNext, update_err_eq] at hsL
          exact absurd hsL (by decide)
      · intro hsN
        rcases fetchRun_shape env with ⟨cs, hsh⟩ | ⟨e, hsh⟩
        · cases cs with
          | nil =>
              show ((update c.m (fetchDueCardsRun env)).1).cards.length ≤
                ((update c.m (fetchDueCardsRun env)).1).currentCardIndex
              rw [hsh, update_cardsLoaded_nil]
              simp [hc]
          | cons c0 cs0 =>
              exfalso
              rw [hsh] at hsN
              simp only [deliverNext, update_cardsLoaded_cons] at hsN
              exact absurd hsN (by decide)
        · exfalso
          rw [hsh] at hsN
          simp only [deliverNext, update_err_eq] at hsN
          exact absurd hsN (by decide)
  | answer o cid ease =>
      have hne : Cmd.answerCard cid ease ≠ Cmd.fetchDueCards :=
        fun h => Cmd.noConfusion h
      have hfp : Cmd.fetchDueCards ∉ c.pending := by
        intro hf
        obtain ⟨hp, -, -, -⟩ := h1 hf
        rw [hp] at hmem
        exact hne (List.mem_singleton.mp hmem)
      have hmsL : c.m.state ≠ appState.stateLoading := fun hsL => hfp (h2 hsL)
      have hfp' : Cmd.fetchDueCards ∉
          (deliverNext c (Cmd.answerCard cid ease) (answerCardRun o cid ease)).pending := by
        intro hf
        simp only [deliverNext] at hf
        rcases List.mem_append.mp hf with hf | hf
        · exact hfp (List.mem_of_mem_erase hf)
        · rcases answerRun_shape o cid ease with hsh | ⟨e, hsh⟩ <;>
            rw [hsh] at hf <;>
            rw [update_msg_no_cmd c.m _ (fun s h => Msg.noConfusion h)] at hf <;>
            exact absurd hf (by simp [netCmds])
      refine ⟨fun hf => absurd hf hfp', ?_, ?_⟩
      · intro hsL
        exfalso
        rcases answerRun_shape o cid ease with hsh | ⟨e, hsh⟩
        · rw [hsh] at hsL
          simp only [deliverNext, update_cardAnswered_eq] at hsL
          by_cases hge : c.m.currentCardIndex + 1 ≥ c.m.cards.length
          · rw [if_pos hge] at hsL
            simp at hsL
          · rw [if_neg hge] at hsL
            exact hmsL hsL
        · rw [hsh] at hsL
          simp only [deliverNext, update_err_eq] at hsL
          exact absurd hsL (by decide)
      · intro hsN
        rcases answerRun_shape o cid ease with hsh | ⟨e, hsh⟩
        · show ((update c.m (answerCardRun o cid ease)).1).cards.length ≤
            ((update c.m (answerCardRun o cid ease)).1).currentCardIndex
          rw [hsh, update_cardAnswered_eq]
          by_cases hge : c.m.currentCardIndex + 1 ≥ c.m.cards.length
          · rw [if_pos hge]; simpa using hge
          · rw [if_neg hge]
            rw [hsh] at hsN
            simp only [deliverNext, update_cardAnswered_eq] at hsN
            rw [if_neg hge] at hsN
            have := h3 hsN
            simp only []
            omega
        · exfalso
          rw [hsh] at hsN
          simp only [deliverNext, update_err_eq] at hsN
          exact absurd hsN (by decide)

/-- Every reachable configuration satisfies the invariant. -/
lemma reachable_inv {c : Config} (h : Reachable c) : ReachInv c := by
  induction h with
  | init => exact inv_init
  | step hr hs ih =>
      cases hs with
      | key s => exact inv_key _ s ih
      | deliver cmd msg hmem hres => exact inv_deliver _ cmd msg hmem hres ih

/-- The cursor never decreases across any step taken from a configuration
satisfying the invariant. -/
lemma step_idx_mono {c c' : Config} (hI : ReachInv c) (hs : Step c c') :
    c.m.currentCardIndex ≤ c'.m.currentCardIndex := by
  cases hs with
  | key s => exact update_key_idx_mono c.m s
  | deliver cmd msg hmem hres =>
      cases hres with
      | fetch env =>
          obtain ⟨hp, hsL, hi, hc⟩ := hI.1 hmem
          rw [hi]
          exact Nat.zero_le _
      | answer o cid ease =>
          show c.m.currentCardIndex ≤
            ((update c.m (answerCardRun o cid ease)).1).currentCardIndex
          rcases answerRun_shape o cid ease with hsh | ⟨e, hsh⟩ <;> rw [hsh]
          · rw [update_cardAnswered_eq]
            by_cases hge : c.m.currentCardIndex + 1 ≥ c.m.cards.length
            · rw [if_pos hge]; simp
            · rw [if_neg hge]; simp
          · rw [update_err_eq]

/-! ## Ease-label lemmas -/

/-- Looking up an association list after an insertion. -/
lemma alLookup_alInsert (l : List (Int × String)) (k : Int) (v : String) (n : Int) :
    alLookup (alInsert l k v) n = if n = k then some v else alLookup l n := by
  induction l with
  | nil =>
      by_cases h : n = k
      · subst h; simp [alInsert, alLookup]
      · have h2 : ¬ k = n := fun hh => h hh.symm
        simp [alInsert, alLookup, h, h2]
  | cons p t ih =>
      obtain ⟨k', v'⟩ := p
      by_cases hk : k' = k
      · subst hk
        by_cases h : n = k'
        · subst h; simp [alInsert, alLookup]
        · have h2 : ¬ k' = n := fun hh => h hh.symm
          simp [alInsert, alLookup, h, h2]
      · by_cases h : k' = n
        · subst h
          have h2 : ¬ k' = k := hk
          simp [alInsert, alLookup, h2]
        · simp [alInsert, alLookup, hk, h, ih]

/-- Folding the button list into the options map: the value stored for a
key that occurs in the list is its `easeEntry`. -/
lemma alLookup_foldl_ease (bs : List Int) (acc : List (Int × String)) (n : Int) :
    alLookup (bs.foldl (fun a v => alInsert a v (easeEntry v)) acc) n =
      if n ∈ bs then some (easeEntry n) else alLookup acc n := by
  induction bs generalizing acc with
  | nil => simp
  | cons b t ih =>
      simp only [List.foldl_cons, ih, alLookup_alInsert, List.mem_cons]
      by_cases ht : n ∈ t
      · rw [if_pos ht, if_pos (Or.inr ht)]
      · rw [if_neg ht]
        by_cases hb : n = b
        · rw [if_pos hb, if_pos (Or.inl hb), hb]
        · rw [if_neg hb, if_neg (fun h => h.elim hb ht)]

/-- The options map built by `fetchDueCardsCmd` assigns `easeEntry` to
every button code that occurs in the button list. -/
lemma alLookup_mkEaseOptions (bs : List Int) (n : Int) (h : n ∈ bs) :
    alLookup (mkEaseOptions bs) n = some (easeEntry n) := by
  unfold mkEaseOptions
  rw [alLookup_foldl_ease, if_pos h]

/-- The stored label, written out as the visible case split. -/
lemma easeEntry_cases (n : Int) :
    easeEntry n =
      if n = 1 then "Again"
      else if n = 2 then "Hard"
      else if n = 3 then "Good"
      else if n = 4 then "Easy"
      else "Ease " ++ toString n := by
  unfold easeEntry defaultEaseLabels
  split_ifs <;> rfl

/-! ## Reachability of the concrete trace -/

lemma reach_cfg1 : Reachable cfg1 :=
  Reachable.step Reachable.init
    (Step.deliver initConfig Cmd.fetchDueCards (fetchDueCardsRun envEx)
      (List.mem_singleton.mpr rfl) (Resolves.fetch envEx))

lemma reach_cfg2 : Reachable cfg2 :=
  Reachable.step reach_cfg1 (Step.key cfg1 "enter")

lemma reach_cfg3 : Reachable cfg3 :=
  Reachable.step reach_cfg2 (Step.key cfg2 "1")

lemma reach_cfg4 : Reachable cfg4 :=
  Reachable.step reach_cfg3 (Step.key cfg3 "n")

lemma cfg4_pending : Cmd.answerCard 1 1 ∈ cfg4.pending := by decide

lemma reach_cfg5 : Reachable cfg5 :=
  Reachable.step reach_cfg4
    (Step.deliver cfg4 (Cmd.answerCard 1 1) (answerCardRun oOk 1 1)
      cfg4_pending (Resolves.answer oOk 1 1))

/-- C1: claimed invariant.  Counterexample at two reachable points: the
initial configuration has cursor equal to the (empty) card-list length
but phase `stateLoading`, not Exhausted; and after the stale answer
completion the cursor strictly exceeds the card-list length. -/
theorem cursor_invariant_cex :
    (Reachable initConfig ∧
      initConfig.m.currentCardIndex = initConfig.m.cards.length ∧
      initConfig.m.state ≠ appState.stateNoCards) ∧
    (Reachable cfg5 ∧ cfg5.m.cards.length < cfg5.m.currentCardIndex) :=
  ⟨⟨Reachable.init, rfl, by decide⟩, reach_cfg5, by decide⟩

/-- C1 (amended): along every step from a reachable configuration the
cursor never decreases, and in phase `stateNoCards` (Exhausted) the cursor
is at or beyond the card-list length; the cursor may exceed the length and
cursor equal to length does not imply Exhausted. -/
theorem cursor_monotone_bounded {c c' : Config}
    (hr : Reachable c) (hs : Step c c') :
    c.m.currentCardIndex ≤ c'.m.currentCardIndex ∧
    (c'.m.state = appState.stateNoCards →
      c'.m.cards.length ≤ c'.m.currentCardIndex) :=
  ⟨step_idx_mono (reachable_inv hr) hs,
   (reachable_inv (Reachable.step hr hs)).2.2⟩

theorem cursor_monotone_bounded_witness :
    initConfig.m.currentCardIndex ≤ (keyNext initConfig "q").m.currentCardIndex ∧
    ((keyNext initConfig "q").m.state = appState.stateNoCards →
      (keyNext initConfig "q").m.cards.length ≤
        (keyNext initConfig "q").m.currentCardIndex) :=
  cursor_monotone_bounded Reachable.init (Step.key initConfig "q")

/-- C2: the code applies `cardAnsweredMsg` unconditionally.  At the
reachable configuration `cfg4`, whose phase is `stateNoCards` (not
Reviewing), delivering the pending answer completion advances the cursor
and changes the model, instead of being ignored. -/
theorem stale_answer_advances_cursor :
    Reachable cfg4 ∧
    cfg4.m.state = appState.stateNoCards ∧
    Step cfg4 cfg5 ∧
    cfg5.m.currentCardIndex = cfg4.m.currentCardIndex + 1 ∧
    (update cfg4.m (Msg.cardAnswered 1 1)).1 ≠ cfg4.m :=
  ⟨reach_cfg4, rfl,
   Step.deliver cfg4 (Cmd.answerCard 1 1) (answerCardRun oOk 1 1)
     cfg4_pending (Resolves.answer oOk 1 1),
   rfl,
   fun h => absurd (congrArg model.currentCardIndex h) (by decide)⟩

/-- C3: claimed single outstanding task.  Counterexample: at the reachable
configuration `cfg3` the answer task for card 1 is still pending, yet
pressing a valid ease key dispatches a second answer call. -/
theorem second_dispatch_while_pending_cex :
    Reachable cfg3 ∧
    cfg3.pending = [Cmd.answerCard 1 1] ∧
    (update cfg3.m (Msg.key "1")).2 = some (Cmd.answerCard 1 1) :=
  ⟨reach_cfg3, by decide, by decide⟩

/-- C3 (amended): at most one fetch task is ever outstanding (it is
dispatched once at startup and never again); answer dispatches are not
guarded by pending-task state, so a valid ease key press starts another
answer task even while one is pending. -/
theorem at_most_one_fetch (c : Config) (hr : Reachable c) :
    c.pending.count Cmd.fetchDueCards ≤ 1 := by
  obtain ⟨h1, -, -⟩ := reachable_inv hr
  by_cases hf : Cmd.fetchDueCards ∈ c.pending
  · obtain ⟨hp, -⟩ := h1 hf
    rw [hp]
    simp
  · rw [List.count_eq_zero.mpr hf]
    exact Nat.zero_le 1

theorem at_most_one_fetch_witness :
    initConfig.pending.count Cmd.fetchDueCards ≤ 1 :=
  at_most_one_fetch initConfig Reachable.init

/-- C4 (amended): an unreachable endpoint, an unreadable body, an
undecodable body, and an API-reported error each produce their own
distinct failure from `postAnkiConnect`; the HTTP status code plays no
part. -/
theorem postAnkiConnect_failures (e b u msg : String) (r : JVal) (st st2 st3 : Nat) :
    postAnkiConnect (PostOutcome.connErr e) =
      Except.error (PAFailure.connectFailed e)
    ∧ postAnkiConnect (PostOutcome.resp st (Body.readErr b)) =
        Except.error (PAFailure.readBodyFailed b)
    ∧ postAnkiConnect (PostOutcome.resp st2 (Body.bytes (Except.error u))) =
        Except.error (PAFailure.unmarshalFailed u)
    ∧ postAnkiConnect
        (PostOutcome.resp st3 (Body.bytes (Except.ok { result := r, error := some msg }))) =
        Except.error (PAFailure.ankiError msg)
    ∧ PAFailure.connectFailed e ≠ PAFailure.readBodyFailed b
    ∧ PAFailure.connectFailed e ≠ PAFailure.unmarshalFailed u
    ∧ PAFailure.connectFailed e ≠ PAFailure.ankiError msg
    ∧ PAFailure.readBodyFailed b ≠ PAFailure.unmarshalFailed u
    ∧ PAFailure.readBodyFailed b ≠ PAFailure.ankiError msg
    ∧ PAFailure.unmarshalFailed u ≠ PAFailure.ankiError msg := by
  refine ⟨rfl, rfl, rfl, rfl, ?_, ?_, ?_, ?_, ?_, ?_⟩ <;> simp

/-- C4: claimed non-2xx handling.  Counterexample: a status-500 response
whose body decodes with a null error field is returned as success; the
source never reads `resp.StatusCode`. -/
theorem non2xx_not_failure_cex :
    postAnkiConnect
      (PostOutcome.resp 500 (Body.bytes (Except.ok { result := JVal.other, error := none }))) =
      Except.ok JVal.other := rfl

/-- C5: claimed ascending control order.  Counterexample: the card built
from button list [3, 1] renders its controls in stored (insertion) order
3 then 1, which is not ascending. -/
theorem ease_controls_not_sorted_cex :
    view mC5 = "Anki Study TUI\nCard 1/1\nf\n\nb\n\nPress 1-4 to answer: 3: Good 1: Again"
    ∧ (mkCard recC5).EaseOptions.map Prod.fst = [3, 1]
    ∧ ¬ List.Sorted (· ≤ ·) ((mkCard recC5).EaseOptions.map Prod.fst) := by
  refine ⟨rfl, rfl, ?_⟩
  intro hsorted
  rw [show (mkCard recC5).EaseOptions.map Prod.fst = [3, 1] from rfl] at hsorted
  have := List.rel_of_sorted_cons hsorted 1 (List.mem_singleton.mpr rfl)
  omega

/-- C5 (amended): a revealed Reviewing frame is a pure function of the
model; it lists exactly one labeled control per legal ease option, in the
stored option order (the insertion order of the Go map, whose iteration
order the language leaves unspecified), not necessarily ascending. -/
theorem view_controls (m : model) (hq : m.quitting = false)
    (hs : m.state = appState.stateDisplayingCard) (hb : m.showBack = true)
    (hlt : m.currentCardIndex < m.cards.length) :
    view m = joinVertical
      [m.styles.title "Anki Study TUI",
       m.styles.status
         ("Card " ++ toString (m.currentCardIndex + 1) ++ "/" ++ toString m.cards.length),
       m.styles.card
         (m.styles.front (m.cards.get ⟨m.currentCardIndex, hlt⟩).Front ++ "\n\n"
           ++ m.styles.back (m.cards.get ⟨m.currentCardIndex, hlt⟩).Back ++ "\n\n"
           ++ m.styles.prompt "Press 1-4 to answer:"
           ++ String.join (easeControls m.styles
                (m.cards.get ⟨m.currentCardIndex, hlt⟩).EaseOptions))]
    ∧ (easeControls m.styles (m.cards.get ⟨m.currentCardIndex, hlt⟩).EaseOptions).length
        = (m.cards.get ⟨m.currentCardIndex, hlt⟩).EaseOptions.length
    ∧ ∀ v t, (v, t) ∈ (m.cards.get ⟨m.currentCardIndex, hlt⟩).EaseOptions →
        (" " ++ m.styles.button (toString v ++ ": " ++ t)) ∈
          easeControls m.styles (m.cards.get ⟨m.currentCardIndex, hlt⟩).EaseOptions := by
  have h0 : 0 < m.cards.length := lt_of_le_of_lt (Nat.zero_le _) hlt
  refine ⟨?_, ?_, ?_⟩
  · simp only [view, hq, hs, hb]
    rw [dif_pos ⟨h0, hlt⟩]
    simp
  · simp [easeControls]
  · intro v t hmem
    simp only [easeControls, List.mem_map]
    exact ⟨(v, t), hmem, rfl⟩

theorem view_controls_witness :
    view mC5 = "Anki Study TUI\nCard 1/1\nf\n\nb\n\nPress 1-4 to answer: 3: Good 1: Again" :=
  (view_controls mC5 rfl rfl rfl (by decide)).1

/-- C6: for every button code in a fetched card record, the synthesized
label is Again/Hard/Good/Easy for codes 1..4 and "Ease N" otherwise. -/
theorem ease_label_table (ci : CardInfoRec) (n : Int) (hmem : n ∈ ci.buttons) :
    alLookup (mkCard ci).EaseOptions n =
      some (if n = 1 then "Again"
            else if n = 2 then "Hard"
            else if n = 3 then "Good"
            else if n = 4 then "Easy"
            else "Ease " ++ toString n) := by
  show alLookup (mkEaseOptions ci.buttons) n = _
  rw [alLookup_mkEaseOptions ci.buttons n hmem, easeEntry_cases]

theorem ease_label_table_witness :
    alLookup (mkCard recW6).EaseOptions 5 =
      some (if (5 : Int) = 1 then "Again"
            else if (5 : Int) = 2 then "Hard"
            else if (5 : Int) = 3 then "Good"
            else if (5 : Int) = 4 then "Easy"
            else "Ease " ++ toString (5 : Int)) :=
  ease_label_table recW6 5 (by decide)

/-- C7: any network failure during the initial fetch (finding due ids, or
fetching card details once due ids were found) is delivered as an
`errMsg` wrapping that failure, and processing that event yields phase
`stateError` with the error stored verbatim and no cards. -/
theorem fetch_error_to_failed (env : FetchEnv) (m : model) (f : PAFailure)
    (hm : m.cards = []) :
    (postAnkiConnect env.findOutcome = Except.error f →
      fetchDueCardsRun env = Msg.err ("failed to find due cards: " ++ failureMsg f) ∧
      errorProcessed m ("failed to find due cards: " ++ failureMsg f))
    ∧ (∀ ids, postAnkiConnect env.findOutcome = Except.ok (JVal.arr ids) →
        (extractCardIDs ids).length ≠ 0 →
        postAnkiConnect env.infoOutcome = Except.error f →
        fetchDueCardsRun env = Msg.err ("failed to get cards info: " ++ failureMsg f) ∧
        errorProcessed m ("failed to get cards info: " ++ failureMsg f)) := by
  have hgen : ∀ e, errorProcessed m e := fun e => ⟨rfl, rfl, hm⟩
  constructor
  · intro hf
    unfold fetchDueCardsRun
    rw [hf]
    exact ⟨rfl, hgen _⟩
  · intro ids hok hne hinf
    unfold fetchDueCardsRun
    rw [hok]
    simp only [if_neg hne]
    rw [hinf]
    exact ⟨rfl, hgen _⟩

theorem fetch_error_to_failed_witness :
    fetchDueCardsRun envW7 =
      Msg.err ("failed to find due cards: "
        ++ failureMsg (PAFailure.connectFailed "connection refused")) ∧
    errorProcessed InitialModel
      ("failed to find due cards: "
        ++ failureMsg (PAFailure.connectFailed "connection refused")) :=
  (fetch_error_to_failed envW7 InitialModel
    (PAFailure.connectFailed "connection refused") rfl).1 rfl

/-- C8: in a revealed Reviewing state, pressing an ease key 1..4 whose
value is not among the current card's ease options leaves the model
unchanged and dispatches nothing. -/
theorem invalid_ease_noop (m : model) (s : String) (ease : Int)
    (hs : m.state = appState.stateDisplayingCard) (hb : m.showBack = true)
    (ha : atoiDigit s = some ease)
    (hlt : m.currentCardIndex < m.cards.length)
    (hno : alLookup (m.cards.get ⟨m.currentCardIndex, hlt⟩).EaseOptions ease = none) :
    update m (Msg.key s) = (m, none) := by
  have hdig : s = "1" ∨ s = "2" ∨ s = "3" ∨ s = "4" := by
    revert ha
    unfold atoiDigit
    split_ifs with h1 h2 h3 h4 <;> intro ha
    · exact Or.inl h1
    · exact Or.inr (Or.inl h2)
    · exact Or.inr (Or.inr (Or.inl h3))
    · exact Or.inr (Or.inr (Or.inr h4))
    · exact absurd ha (by simp)
  have hq : ¬(s = "q" ∨ s = "ctrl+c") := by
    rcases hdig with h | h | h | h <;> subst h <;> decide
  have hent : ¬ s = "enter" := by
    rcases hdig with h | h | h | h <;> subst h <;> decide
  simp only [update, if_neg hq, if_neg hent, if_pos hdig,
    if_pos (And.intro hs hb), ha, dif_pos hlt, hno]

theorem invalid_ease_noop_witness :
    update mW8 (Msg.key "2") = (mW8, none) :=
  invalid_ease_noop mW8 "2" 2 rfl rfl rfl (by decide) rfl

/-- C9: revealing is idempotent in a Reviewing state: a second "enter"
leaves the model where the first put it, renders the same frame, and
dispatches no command. -/
theorem reveal_idempotent (m : model)
    (hs : m.state = appState.stateDisplayingCard) :
    update (update m (Msg.key "enter")).1 (Msg.key "enter") =
      ((update m (Msg.key "enter")).1, none)
    ∧ view (update (update m (Msg.key "enter")).1 (Msg.key "enter")).1 =
        view (update m (Msg.key "enter")).1 := by
  have key1 : ¬("enter" = "q" ∨ "enter" = "ctrl+c") := by decide
  by_cases hb : m.showBack = true
  · have h1 : update m (Msg.key "enter") = (m, none) := by
      simp only [update, if_neg key1, if_pos rfl, if_pos hs, if_pos hb,
        eq_self_iff_true, ite_true]
    rw [h1]
    exact ⟨h1, by rw [h1]⟩
  · have h1 : update m (Msg.key "enter") = ({ m with showBack := true }, none) := by
      simp only [update, if_neg key1, if_pos rfl, if_pos hs, if_neg hb,
        eq_self_iff_true, ite_true]
    have hs2 : ({ m with showBack := true } : model).state =
        appState.stateDisplayingCard := hs
    have h2 : update ({ m with showBack := true } : model) (Msg.key "enter") =
        ({ m with showBack := true }, none) := by
      simp only [update, if_neg key1, if_pos rfl, if_pos hs2,
        eq_self_iff_true, ite_true]
    rw [h1]
    exact ⟨h2, by rw [h2]⟩

theorem reveal_idempotent_witness :
    update (update mW9 (Msg.key "enter")).1 (Msg.key "enter") =
      ((update mW9 (Msg.key "enter")).1, none)
    ∧ view (update (update mW9 (Msg.key "enter")).1 (Msg.key "enter")).1 =
        view (update mW9 (Msg.key "enter")).1 :=
  reveal_idempotent mW9 rfl

/-- C10: in `stateDisplayingCard` with the cursor at or beyond the end of
the card list, `view` renders the frame with empty status and body,
reading no card: the card access is guarded by the bounds check. -/
theorem view_out_of_range (m : model) (hq : m.quitting = false)
    (hs : m.state = appState.stateDisplayingCard)
    (hge : m.cards.length ≤ m.currentCardIndex) :
    view m = joinVertical [m.styles.title "Anki Study TUI", "", ""] := by
  simp only [view, hq, hs]
  rw [dif_neg]
  · simp
  · rintro ⟨h0, hlt⟩
    omega

theorem view_out_of_range_witness :
    view mW10 = joinVertical [mW10.styles.title "Anki Study TUI", "", ""] :=
  view_out_of_range mW10 rfl rfl (by decide)
